import Mathlib

/-!
Verification of the UFML-for-FigJam screen-flow notation parser and the
renderer's name-resolution logic.

The repository contains two dialects of the line-oriented notation parser:

* `src/code.ts` — `ScreenFlowParser.parse` with requirement annotations
  (`// P: …`), component prefixes `T `/`E `/`B `/`A `, unconditional
  transitions (`=>target`) and conditional transitions (`={cond}=>target`).
* the unnamed source file (`part_000`) — `ScreenFlowParser.parse` with
  section breaks (`--`), a dual-effect action-transition rule triggered by
  any line containing `=>`, and component prefixes `T `/`B `/`A `/`O `.

Both are embedded below, word for word from the source, over `List Char`
(JS strings), with the JS string primitives (`split`, `trim`, `slice`,
`startsWith`, `includes`) modelled explicitly.
-/

namespace UFML

/-- ASCII whitespace recognised by JS `String.prototype.trim` (no input in
this repository uses non-ASCII whitespace). -/
def isWs (c : Char) : Bool :=
  c = ' ' || c = '\t' || c = '\n' || c = '\r' || c = '\x0b' || c = '\x0c'

/-- JS `s.trim()`: drop whitespace from both ends. -/
def trimL (l : List Char) : List Char :=
  ((l.dropWhile isWs).reverse.dropWhile isWs).reverse

/-- JS `text.split('\n')`: `""` splits to `[""]`, a trailing newline yields a
trailing empty line. -/
def splitNl : List Char → List (List Char)
  | [] => [[]]
  | c :: cs =>
    if c = '\n' then [] :: splitNl cs
    else
      match splitNl cs with
      | [] => [[c]]
      | g :: gs => (c :: g) :: gs

/-- JS `s.split(':')`. -/
def splitColon : List Char → List (List Char)
  | [] => [[]]
  | c :: cs =>
    if c = ':' then [] :: splitColon cs
    else
      match splitColon cs with
      | [] => [[c]]
      | g :: gs => (c :: g) :: gs

/-- JS `s.split("=>")`: leftmost, non-overlapping occurrences of the
two-character separator. -/
def splitArrow : List Char → List (List Char)
  | [] => [[]]
  | '=' :: '>' :: cs =>
    [] :: splitArrow cs
  | c :: cs =>
    match splitArrow cs with
    | [] => [[c]]
    | g :: gs => (c :: g) :: gs

/-- JS `line.includes("=>")`. -/
def hasArrow : List Char → Bool
  | [] => false
  | '=' :: '>' :: _ => true
  | _ :: cs => hasArrow cs

/-- JS `s.startsWith(p)`. -/
def startsW : List Char → List Char → Bool
  | [], _ => true
  | _ :: _, [] => false
  | p :: ps, c :: cs => p == c && startsW ps cs

/-- JS `s.endsWith(p)`. -/
def endsW (p l : List Char) : Bool :=
  startsW p.reverse l.reverse

/-- JS `description.join(':')`. -/
def joinColon (parts : List (List Char)) : List Char :=
  List.intercalate [':'] parts

/-- Both parsers open a screen on `line.startsWith('[') && line.endsWith(']')`. -/
def isHeaderL (l : List Char) : Bool :=
  startsW ['['] l && endsW [']'] l

/-- JS `line.slice(1, -1)`: the screen name between the brackets. -/
def headerNameL (l : List Char) : List Char :=
  (l.drop 1).dropLast

/-! ## The `src/code.ts` data model (`interface ScreenElement`) -/

/-- Component kinds of `src/code.ts` (`'text' | 'field' | 'button' | 'action'`). -/
inductive CompKindC where
  | text
  | field
  | button
  | action
deriving DecidableEq

/-- One entry of `ScreenElement.components` in `src/code.ts`. -/
structure CompC where
  kind : CompKindC
  name : List Char
deriving DecidableEq

/-- One entry of `ScreenElement.transitions` in `src/code.ts`
(`{ to: string; condition?: string }`). -/
structure TransC where
  target : List Char
  condition : Option (List Char)
deriving DecidableEq

/-- `ScreenElement.requirements` in `src/code.ts`. -/
structure ReqsC where
  performance : Option (List Char)
  security : Option (List Char)
  availability : Option (List Char)
  usability : Option (List Char)
deriving DecidableEq

/-- A screen as produced by the `src/code.ts` parser. -/
structure ScreenC where
  name : List Char
  requirements : ReqsC
  components : List CompC
  transitions : List TransC
deriving DecidableEq

/-- The parser's mutable state: `this.screens` and `this.currentScreen`. -/
structure StateC where
  screens : List ScreenC
  currentScreen : Option ScreenC
deriving DecidableEq

/-- The fresh screen record built at a header line in `src/code.ts`
(lines 39–45). -/
def mkScreenC (n : List Char) : ScreenC :=
  { name := n, requirements := ⟨none, none, none, none⟩, components := [], transitions := [] }

/-- The `//` branch of `src/code.ts` (lines 46–63): split the rest on `:`,
switch on the trimmed category, overwrite that requirement with the joined,
trimmed description.  Unrecognized categories fall through. -/
def reqLineC (cur : ScreenC) (line : List Char) : ScreenC :=
  let parts := splitColon (line.drop 2)
  let ty := trimL (parts.headD [])
  let desc := trimL (joinColon parts.tail)
  if ty = ['P'] then { cur with requirements := { cur.requirements with performance := some desc } }
  else if ty = ['S'] then { cur with requirements := { cur.requirements with security := some desc } }
  else if ty = ['A'] then { cur with requirements := { cur.requirements with availability := some desc } }
  else if ty = ['U'] then { cur with requirements := { cur.requirements with usability := some desc } }
  else cur

/-- The component-prefix test of `src/code.ts` (lines 64–69). -/
def compPrefixC (l : List Char) : Bool :=
  startsW ['T', ' '] l || startsW ['E', ' '] l || startsW ['B', ' '] l || startsW ['A', ' '] l

/-- The component branch of `src/code.ts` (lines 70–78): `line[0]` selects
the kind, `line.slice(2)` is the (untrimmed) name. -/
def compLineC (cur : ScreenC) (line : List Char) : ScreenC :=
  let ty := line.headD ' '
  let kind :=
    if ty = 'T' then CompKindC.text
    else if ty = 'E' then CompKindC.field
    else if ty = 'B' then CompKindC.button
    else CompKindC.action
  { cur with components := cur.components ++ [{ kind := kind, name := line.drop 2 }] }

/-- The `=>` branch of `src/code.ts` (lines 79–84): push
`{ to: line.slice(2).trim() }`. -/
def uncondLineC (cur : ScreenC) (line : List Char) : ScreenC :=
  { cur with transitions := cur.transitions ++ [{ target := trimL (line.drop 2), condition := none }] }

/-- Is the three-character sequence `}=>` present at index `k` of `l`? -/
def braAt (l : List Char) (k : Nat) : Bool :=
  startsW ['}', '=', '>'] (l.drop k)

/-- The JS regular expression `/={(.+)}=>(.+)/` applied with `line.match`:
a match starting at position `p` needs `={` at `p`, a `}=>` at some
`k ≥ p + 3` (so group 1 is non-empty) with at least one character after it
(so group 2 is non-empty); the regex engine picks the leftmost feasible `p`,
and within it the greedy `(.+)` picks the largest such `k`.  Group 2 is then
everything after the `}=>`. -/
def matchAt (l : List Char) (p : Nat) : Option (List Char × List Char) :=
  if startsW ['=', '{'] (l.drop p) then
    match ((List.range l.length).filter
        (fun k => decide (p + 3 ≤ k) && braAt l k && decide (k + 4 ≤ l.length))).getLast? with
    | some k => some ((l.drop (p + 2)).take (k - (p + 2)), l.drop (k + 3))
    | none => none
  else none

/-- `line.match(/={(.+)}=>(.+)/)`: groups 1 and 2 of the first match, if any. -/
def regexBraceArrow (l : List Char) : Option (List Char × List Char) :=
  ((List.range l.length).filterMap (fun p => matchAt l p)).head?

/-- The `={` branch of `src/code.ts` (lines 85–92): on a regex match push
`{ to: match[2].trim(), condition: match[1].trim() }`, otherwise do nothing. -/
def condLineC (cur : ScreenC) (line : List Char) : ScreenC :=
  match regexBraceArrow line with
  | some (cond, tgt) =>
    { cur with transitions := cur.transitions ++ [{ target := trimL tgt, condition := some (trimL cond) }] }
  | none => cur

/-- The effect of one non-header line on the current screen in
`src/code.ts` — the branches of lines 46–93 restricted to their action on
`this.currentScreen` (each branch only ever mutates the current screen). -/
def applyLineC (cur : ScreenC) (line : List Char) : ScreenC :=
  if line = [] then cur
  else if startsW ['/', '/'] line then reqLineC cur line
  else if compPrefixC line then compLineC cur line
  else if startsW ['=', '>'] line then uncondLineC cur line
  else if startsW ['=', '{'] line then condLineC cur line
  else cur

/-- One iteration of the `for (const line of lines)` loop of
`ScreenFlowParser.parse` in `src/code.ts` (lines 32–94).  Every non-header
branch is guarded by `if (this.currentScreen)` and only mutates the current
screen. -/
def stepCode (s : StateC) (line : List Char) : StateC :=
  if line = [] then s
  else if isHeaderL line then
    { screens :=
        match s.currentScreen with
        | some cur => s.screens ++ [cur]
        | none => s.screens,
      currentScreen := some (mkScreenC (headerNameL line)) }
  else if startsW ['/', '/'] line then
    match s.currentScreen with
    | none => s
    | some cur => { s with currentScreen := some (reqLineC cur line) }
  else if compPrefixC line then
    match s.currentScreen with
    | none => s
    | some cur => { s with currentScreen := some (compLineC cur line) }
  else if startsW ['=', '>'] line then
    match s.currentScreen with
    | none => s
    | some cur => { s with currentScreen := some (uncondLineC cur line) }
  else if startsW ['=', '{'] line then
    match s.currentScreen with
    | none => s
    | some cur => { s with currentScreen := some (condLineC cur line) }
  else s

/-- End of the loop in `src/code.ts` (lines 96–98): commit the open screen. -/
def finalizeC (s : StateC) : List ScreenC :=
  match s.currentScreen with
  | some cur => s.screens ++ [cur]
  | none => s.screens

/-- `this.screens = []; this.currentScreen = null;`. -/
def initC : StateC := ⟨[], none⟩

/-- `const lines = text.split('\n').map((line) => line.trim());`. -/
def linesOf (text : String) : List (List Char) :=
  (splitNl text.data).map trimL

/-- The loop of `ScreenFlowParser.parse` in `src/code.ts` over already
trimmed lines. -/
def parseCodeL (lines : List (List Char)) : List ScreenC :=
  finalizeC (lines.foldl stepCode initC)

/-- `ScreenFlowParser.parse` of `src/code.ts` (lines 26–101). -/
def parseCode (text : String) : List ScreenC :=
  parseCodeL (linesOf text)

/-! ## The unnamed source file's data model (`interface ScreenElement`) -/

/-- Component kinds of the unnamed file (`'text' | 'button' | 'action' | 'other'`). -/
inductive CompKindU where
  | text
  | button
  | action
  | other
deriving DecidableEq

/-- One entry of `ScreenElement.components` in the unnamed file. -/
structure CompU where
  kind : CompKindU
  name : List Char
deriving DecidableEq

/-- One entry of `ScreenElement.transitions` in the unnamed file
(`{ from: string; to: string }`; `from` is a Lean keyword, hence
`fromLabel`). -/
structure TransU where
  fromLabel : List Char
  target : List Char
deriving DecidableEq

/-- A screen as produced by the unnamed file's parser. -/
structure ScreenU where
  name : List Char
  components : List CompU
  transitions : List TransU
  sections : List (List Char)
deriving DecidableEq

/-- Parser state of the unnamed file. -/
structure StateU where
  screens : List ScreenU
  currentScreen : Option ScreenU
deriving DecidableEq

/-- The fresh screen record built at a header line (unnamed file, lines 32–38). -/
def mkScreenU (n : List Char) : ScreenU :=
  { name := n, components := [], transitions := [], sections := [] }

/-- The dual-effect branch of the unnamed file (lines 44–58): split on `=>`,
trim both halves, strip the two-character prefix from the left half, and
push BOTH a transition and an action component named by the stripped label. -/
def arrowLineU (cur : ScreenU) (line : List Char) : ScreenU :=
  let parts := (splitArrow line).map trimL
  let action := parts.headD []
  let target := (parts.drop 1).headD []
  let actionName := action.drop 2
  { cur with
    transitions := cur.transitions ++ [{ fromLabel := actionName, target := target }],
    components := cur.components ++ [{ kind := CompKindU.action, name := actionName }] }

/-- The component-prefix test of the unnamed file (lines 59–64). -/
def compPrefixU (l : List Char) : Bool :=
  startsW ['T', ' '] l || startsW ['B', ' '] l || startsW ['A', ' '] l || startsW ['O', ' '] l

/-- The component branch of the unnamed file (lines 65–73). -/
def compLineU (cur : ScreenU) (line : List Char) : ScreenU :=
  let ty := line.headD ' '
  let kind :=
    if ty = 'T' then CompKindU.text
    else if ty = 'B' then CompKindU.button
    else if ty = 'A' then CompKindU.action
    else CompKindU.other
  { cur with components := cur.components ++ [{ kind := kind, name := line.drop 2 }] }

/-- The effect of one non-header line on the current screen in the unnamed
file (lines 39–74 restricted to their action on `this.currentScreen`). -/
def applyLineU (cur : ScreenU) (line : List Char) : ScreenU :=
  if line = [] then cur
  else if line = ['-', '-'] then { cur with sections := cur.sections ++ [line] }
  else if hasArrow line then arrowLineU cur line
  else if compPrefixU line then compLineU cur line
  else cur

/-- One iteration of the `for (const line of lines)` loop of
`ScreenFlowParser.parse` in the unnamed file (lines 25–75). -/
def stepUnnamed (s : StateU) (line : List Char) : StateU :=
  if line = [] then s
  else if isHeaderL line then
    { screens :=
        match s.currentScreen with
        | some cur => s.screens ++ [cur]
        | none => s.screens,
      currentScreen := some (mkScreenU (headerNameL line)) }
  else if line = ['-', '-'] then
    match s.currentScreen with
    | none => s
    | some cur => { s with currentScreen := some { cur with sections := cur.sections ++ [line] } }
  else if hasArrow line then
    match s.currentScreen with
    | none => s
    | some cur => { s with currentScreen := some (arrowLineU cur line) }
  else if compPrefixU line then
    match s.currentScreen with
    | none => s
    | some cur => { s with currentScreen := some (compLineU cur line) }
  else s

/-- End of the loop in the unnamed file (lines 77–79). -/
def finalizeU (s : StateU) : List ScreenU :=
  match s.currentScreen with
  | some cur => s.screens ++ [cur]
  | none => s.screens

/-- `this.screens = []; this.currentScreen = null;`. -/
def initU : StateU := ⟨[], none⟩

/-- The loop of the unnamed file's `parse` over already trimmed lines. -/
def parseUnnamedL (lines : List (List Char)) : List ScreenU :=
  finalizeU (lines.foldl stepUnnamed initU)

/-- `ScreenFlowParser.parse` of the unnamed source file (lines 19–82). -/
def parseUnnamed (text : String) : List ScreenU :=
  parseUnnamedL (linesOf text)

/-- The disjunction of every line-classification test of the `src/code.ts`
parse loop (an empty line counts as classified: it is skipped by rule). -/
def matchesAnyCode (l : List Char) : Bool :=
  decide (l = []) || isHeaderL l || startsW ['/', '/'] l || compPrefixC l
    || startsW ['=', '>'] l || startsW ['=', '{'] l

/-! ## The renderer's name-to-node table (`ScreenFlowRenderer.render`)

`render`'s first pass creates one node per screen, in sequence order, and
executes `screenNodes.set(screen.name, node)`; the second pass resolves
`screenNodes.get(screen.name)` and `screenNodes.get(transition.to)`.
A node is represented here by its creation index `i` (node `i` is the one
placed at `startX + i * spacing`). -/

/-- JS `Map.prototype.set`: overwrite the entry for key `k`. -/
def setEntry (m : List Char → Option Nat) (k : List Char) (v : Nat) :
    List Char → Option Nat :=
  fun x => if x = k then some v else m x

/-- The first pass of `render` (`src/code.ts` lines 119–124), starting from
table `m` with the next node index `i`. -/
def nodeMapAux (m : List Char → Option Nat) (i : Nat) :
    List ScreenC → (List Char → Option Nat)
  | [] => m
  | s :: rest => nodeMapAux (setEntry m s.name i) (i + 1) rest

/-- The completed `screenNodes` table after the first pass of `render`. -/
def nodeMap (screens : List ScreenC) : List Char → Option Nat :=
  nodeMapAux (fun _ => none) 0 screens

/-- The second pass of `render` (`src/code.ts` lines 125–142): for each
screen in order, look up its own node, then for each of its transitions in
order, look up the target node; when both resolve a connector
`(source, target)` is created, otherwise the edge is skipped. -/
def connectors (screens : List ScreenC) : List (Nat × Nat) :=
  screens.foldl
    (fun acc s =>
      match nodeMap screens s.name with
      | none => acc
      | some src =>
        s.transitions.foldl
          (fun acc2 t =>
            match nodeMap screens t.target with
            | none => acc2
            | some tgt => acc2 ++ [(src, tgt)])
          acc)
    []

/-- Index of the last screen of a given name in a screen sequence. -/
def lastIdxOf (nm : List Char) : List ScreenC → Option Nat
  | [] => none
  | s :: rest =>
    match lastIdxOf nm rest with
    | some j => some (j + 1)
    | none => if s.name = nm then some 0 else none

/-! ## Specification-side description of the parse loop

`collectTopC`/`collectTopU` restate the spec's order-preservation wording:
lines before the first header are dropped, each header opens a screen, and
every screen is obtained by folding the lines of its own body, in source
order, onto the fresh screen record.  The theorems below prove the
imperative loops equal to this description. -/

/-- Spec-side: the screens contributed by `ls` when a screen `cur` is open. -/
def collectC (cur : ScreenC) : List (List Char) → List ScreenC
  | [] => [cur]
  | l :: ls =>
    if isHeaderL l then cur :: collectC (mkScreenC (headerNameL l)) ls
    else collectC (applyLineC cur l) ls

/-- Spec-side: the screens contributed by `ls` before any header was seen. -/
def collectTopC : List (List Char) → List ScreenC
  | [] => []
  | l :: ls =>
    if isHeaderL l then collectC (mkScreenC (headerNameL l)) ls
    else collectTopC ls

/-- Spec-side analogue of `collectC` for the unnamed file's parser. -/
def collectU (cur : ScreenU) : List (List Char) → List ScreenU
  | [] => [cur]
  | l :: ls =>
    if isHeaderL l then cur :: collectU (mkScreenU (headerNameL l)) ls
    else collectU (applyLineU cur l) ls

/-- Spec-side analogue of `collectTopC` for the unnamed file's parser. -/
def collectTopU : List (List Char) → List ScreenU
  | [] => []
  | l :: ls =>
    if isHeaderL l then collectU (mkScreenU (headerNameL l)) ls
    else collectTopU ls

/-! ## Basic lemmas about the loop steps -/

/-- A header line is non-empty. -/
theorem isHeaderL_ne_nil {l : List Char} (h : isHeaderL l = true) : l ≠ [] := by
  rintro rfl
  simp [isHeaderL, startsW] at h

/-- On a header line, the `src/code.ts` step commits the open screen and
opens a fresh one. -/
theorem stepCode_header (scr : List ScreenC) (cs : Option ScreenC) (l : List Char)
    (h : isHeaderL l = true) :
    stepCode ⟨scr, cs⟩ l = ⟨scr ++ cs.toList, some (mkScreenC (headerNameL l))⟩ := by
  have hne : ¬ (l = []) := isHeaderL_ne_nil h
  cases cs <;> simp [stepCode, hne, h, Option.toList]

/-- On a non-header line with an open screen, the `src/code.ts` step only
rewrites the open screen through `applyLineC`. -/
theorem stepCode_line (scr : List ScreenC) (cur : ScreenC) (l : List Char)
    (h : isHeaderL l = false) :
    stepCode ⟨scr, some cur⟩ l = ⟨scr, some (applyLineC cur l)⟩ := by
  by_cases hnil : l = []
  · subst hnil; rfl
  · simp only [stepCode, applyLineC, if_neg hnil, h, Bool.false_eq_true, if_false]
    split_ifs <;> rfl

/-- On a non-header line with no open screen, the `src/code.ts` step does
nothing. -/
theorem stepCode_skip (scr : List ScreenC) (l : List Char)
    (h : isHeaderL l = false) :
    stepCode ⟨scr, none⟩ l = ⟨scr, none⟩ := by
  by_cases hnil : l = []
  · subst hnil; rfl
  · simp only [stepCode, if_neg hnil, h, Bool.false_eq_true, if_false]
    split_ifs <;> rfl

/-- On a header line, the unnamed file's step commits the open screen and
opens a fresh one. -/
theorem stepUnnamed_header (scr : List ScreenU) (cs : Option ScreenU) (l : List Char)
    (h : isHeaderL l = true) :
    stepUnnamed ⟨scr, cs⟩ l = ⟨scr ++ cs.toList, some (mkScreenU (headerNameL l))⟩ := by
  have hne : ¬ (l = []) := isHeaderL_ne_nil h
  cases cs <;> simp [stepUnnamed, hne, h, Option.toList]

/-- On a non-header line with an open screen, the unnamed file's step only
rewrites the open screen through `applyLineU`. -/
theorem stepUnnamed_line (scr : List ScreenU) (cur : ScreenU) (l : List Char)
    (h : isHeaderL l = false) :
    stepUnnamed ⟨scr, some cur⟩ l = ⟨scr, some (applyLineU cur l)⟩ := by
  by_cases hnil : l = []
  · subst hnil; rfl
  · simp only [stepUnnamed, applyLineU, if_neg hnil, h, Bool.false_eq_true, if_false]
    split_ifs <;> rfl

/-- On a non-header line with no open screen, the unnamed file's step does
nothing. -/
theorem stepUnnamed_skip (scr : List ScreenU) (l : List Char)
    (h : isHeaderL l = false) :
    stepUnnamed ⟨scr, none⟩ l = ⟨scr, none⟩ := by
  by_cases hnil : l = []
  · subst hnil; rfl
  · simp only [stepUnnamed, if_neg hnil, h, Bool.false_eq_true, if_false]
    split_ifs <;> rfl

/-! ## The imperative loops compute the spec-side description -/

theorem foldl_stepCode_some (ls : List (List Char)) : ∀ (scr : List ScreenC) (cur : ScreenC),
    finalizeC (ls.foldl stepCode ⟨scr, some cur⟩) = scr ++ collectC cur ls := by
  induction ls with
  | nil => intro scr cur; rfl
  | cons l ls ih =>
    intro scr cur
    by_cases h : isHeaderL l = true
    · rw [List.foldl_cons, stepCode_header _ _ _ h, ih]
      simp [collectC, h]
    · have h' : isHeaderL l = false := by simpa using h
      rw [List.foldl_cons, stepCode_line _ _ _ h', ih]
      simp [collectC, h']

theorem foldl_stepCode_none (ls : List (List Char)) : ∀ (scr : List ScreenC),
    finalizeC (ls.foldl stepCode ⟨scr, none⟩) = scr ++ collectTopC ls := by
  induction ls with
  | nil => intro scr; simp [finalizeC, collectTopC]
  | cons l ls ih =>
    intro scr
    by_cases h : isHeaderL l = true
    · rw [List.foldl_cons, stepCode_header _ _ _ h, foldl_stepCode_some]
      simp [collectTopC, h]
    · have h' : isHeaderL l = false := by simpa using h
      rw [List.foldl_cons, stepCode_skip _ _ h', ih]
      simp [collectTopC, h']

/-- The `src/code.ts` parse loop equals the spec-side grouping description. -/
theorem parseCodeL_collect (ls : List (List Char)) :
    parseCodeL ls = collectTopC ls := by
  have := foldl_stepCode_none ls []
  simpa [parseCodeL, initC] using this

theorem foldl_stepUnnamed_some (ls : List (List Char)) : ∀ (scr : List ScreenU) (cur : ScreenU),
    finalizeU (ls.foldl stepUnnamed ⟨scr, some cur⟩) = scr ++ collectU cur ls := by
  induction ls with
  | nil => intro scr cur; rfl
  | cons l ls ih =>
    intro scr cur
    by_cases h : isHeaderL l = true
    · rw [List.foldl_cons, stepUnnamed_header _ _ _ h, ih]
      simp [collectU, h]
    · have h' : isHeaderL l = false := by simpa using h
      rw [List.foldl_cons, stepUnnamed_line _ _ _ h', ih]
      simp [collectU, h']

theorem foldl_stepUnnamed_none (ls : List (List Char)) : ∀ (scr : List ScreenU),
    finalizeU (ls.foldl stepUnnamed ⟨scr, none⟩) = scr ++ collectTopU ls := by
  induction ls with
  | nil => intro scr; simp [finalizeU, collectTopU]
  | cons l ls ih =>
    intro scr
    by_cases h : isHeaderL l = true
    · rw [List.foldl_cons, stepUnnamed_header _ _ _ h, foldl_stepUnnamed_some]
      simp [collectTopU, h]
    · have h' : isHeaderL l = false := by simpa using h
      rw [List.foldl_cons, stepUnnamed_skip _ _ h', ih]
      simp [collectTopU, h']

/-- The unnamed file's parse loop equals the spec-side grouping description. -/
theorem parseUnnamedL_collect (ls : List (List Char)) :
    parseUnnamedL ls = collectTopU ls := by
  have := foldl_stepUnnamed_none ls []
  simpa [parseUnnamedL, initU] using this

/-! ## Screen names are exactly the header names, in order -/

/-- No non-header line changes the name of the open screen (`src/code.ts`). -/
theorem applyLineC_name (cur : ScreenC) (l : List Char) :
    (applyLineC cur l).name = cur.name := by
  simp only [applyLineC, reqLineC, compLineC, uncondLineC, condLineC]
  split_ifs <;> try rfl
  all_goals
    cases regexBraceArrow l with
    | none => rfl
    | some p => cases p; rfl

/-- No non-header line changes the name of the open screen (unnamed file). -/
theorem applyLineU_name (cur : ScreenU) (l : List Char) :
    (applyLineU cur l).name = cur.name := by
  unfold applyLineU arrowLineU compLineU
  split_ifs <;> rfl

theorem collectC_names (ls : List (List Char)) : ∀ cur : ScreenC,
    (collectC cur ls).map ScreenC.name
      = cur.name :: (ls.filter isHeaderL).map headerNameL := by
  induction ls with
  | nil => intro cur; rfl
  | cons l ls ih =>
    intro cur
    by_cases h : isHeaderL l = true
    · simp [collectC, h, List.filter_cons, ih, mkScreenC]
    · have h' : isHeaderL l = false := by simpa using h
      simp [collectC, h', List.filter_cons, ih, applyLineC_name]

theorem collectTopC_names (ls : List (List Char)) :
    (collectTopC ls).map ScreenC.name = (ls.filter isHeaderL).map headerNameL := by
  induction ls with
  | nil => rfl
  | cons l ls ih =>
    by_cases h : isHeaderL l = true
    · simp [collectTopC, h, List.filter_cons, collectC_names, mkScreenC]
    · have h' : isHeaderL l = false := by simpa using h
      simp [collectTopC, h', List.filter_cons, ih]

theorem collectU_names (ls : List (List Char)) : ∀ cur : ScreenU,
    (collectU cur ls).map ScreenU.name
      = cur.name :: (ls.filter isHeaderL).map headerNameL := by
  induction ls with
  | nil => intro cur; rfl
  | cons l ls ih =>
    intro cur
    by_cases h : isHeaderL l = true
    · simp [collectU, h, List.filter_cons, ih, mkScreenU]
    · have h' : isHeaderL l = false := by simpa using h
      simp [collectU, h', List.filter_cons, ih, applyLineU_name]

theorem collectTopU_names (ls : List (List Char)) :
    (collectTopU ls).map ScreenU.name = (ls.filter isHeaderL).map headerNameL := by
  induction ls with
  | nil => rfl
  | cons l ls ih =>
    by_cases h : isHeaderL l = true
    · simp [collectTopU, h, List.filter_cons, collectU_names, mkScreenU]
    · have h' : isHeaderL l = false := by simpa using h
      simp [collectTopU, h', List.filter_cons, ih]

/-! ## Resolution of the renderer's name table -/

theorem nodeMapAux_apply (screens : List ScreenC) :
    ∀ (m : List Char → Option Nat) (k : Nat) (nm : List Char),
    nodeMapAux m k screens nm =
      (match lastIdxOf nm screens with
       | some j => some (k + j)
       | none => m nm) := by
  induction screens with
  | nil => intro m k nm; rfl
  | cons s rest ih =>
    intro m k nm
    show nodeMapAux (setEntry m s.name k) (k + 1) rest nm = _
    rw [ih]
    cases h : lastIdxOf nm rest with
    | some j =>
      simp only [lastIdxOf, h]
      congr 1
      omega
    | none =>
      simp only [lastIdxOf, h, setEntry]
      by_cases he : s.name = nm
      · simp [he]
      · have he2 : ¬ (nm = s.name) := fun hc => he hc.symm
        simp [he, he2]

theorem lastIdxOf_mem (l : List ScreenC) : ∀ (nm : List Char) (j : Nat),
    lastIdxOf nm l = some j → ∃ hj : j < l.length, (l.get ⟨j, hj⟩).name = nm := by
  induction l with
  | nil => intro nm j h; simp [lastIdxOf] at h
  | cons s rest ih =>
    intro nm j h
    unfold lastIdxOf at h
    cases hr : lastIdxOf nm rest with
    | some j0 =>
      rw [hr] at h
      obtain ⟨hj0, hname⟩ := ih nm j0 hr
      cases h
      exact ⟨by simpa using Nat.succ_lt_succ hj0, hname⟩
    | none =>
      rw [hr] at h
      by_cases he : s.name = nm
      · rw [if_pos he] at h
        cases h
        exact ⟨by simp, he⟩
      · rw [if_neg he] at h
        cases h

theorem lastIdxOf_of_last (screens : List ScreenC) :
    ∀ (nm : List Char) (i : Nat) (hi : i < screens.length),
    (screens.get ⟨i, hi⟩).name = nm →
    (∀ j (hj : j < screens.length), i < j → (screens.get ⟨j, hj⟩).name ≠ nm) →
    lastIdxOf nm screens = some i := by
  induction screens with
  | nil => intro nm i hi _ _; exact absurd hi (by simp)
  | cons s rest ih =>
    intro nm i hi hname hlast
    cases i with
    | zero =>
      have hrest : lastIdxOf nm rest = none := by
        cases hr : lastIdxOf nm rest with
        | none => rfl
        | some j0 =>
          obtain ⟨hj0, hmem⟩ := lastIdxOf_mem rest nm j0 hr
          exact absurd hmem
            (hlast (j0 + 1) (by simpa using Nat.succ_lt_succ hj0) (Nat.succ_pos j0))
      have hs : s.name = nm := hname
      unfold lastIdxOf
      rw [hrest]
      simp [hs]
    | succ i' =>
      have hi' : i' < rest.length := by simpa using Nat.lt_of_succ_lt_succ hi
      have hrest : lastIdxOf nm rest = some i' := by
        refine ih nm i' hi' hname ?_
        intro j hj hij
        exact hlast (j + 1) (by simpa using Nat.succ_lt_succ hj) (Nat.succ_lt_succ hij)
      unfold lastIdxOf
      rw [hrest]

/-! ## Line-shape helpers -/

theorem startsW_two {a b : Char} {l : List Char} (h : startsW [a, b] l = true) :
    ∃ t, l = a :: b :: t := by
  match l with
  | [] => simp [startsW] at h
  | [c] => simp [startsW] at h
  | c :: d :: t =>
    simp only [startsW, Bool.and_eq_true, beq_iff_eq] at h
    exact ⟨t, by rw [h.1, h.2.1]⟩

/-- A line classified by no rule of `src/code.ts` leaves ANY parser state
untouched. -/
theorem stepCode_unmatched (s : StateC) (l : List Char)
    (h : matchesAnyCode l = false) : stepCode s l = s := by
  simp only [matchesAnyCode, Bool.or_eq_false_iff, decide_eq_false_iff_not] at h
  obtain ⟨⟨⟨⟨⟨h1, h2⟩, h3⟩, h4⟩, h5⟩, h6⟩ := h
  simp only [stepCode, if_neg h1, h2, h3, h4, h5, h6, Bool.false_eq_true, if_false]

/-! ## The claims -/

/-- C1: for the input text `"[A]\nA X => B\n"`, parse (the unnamed file's
dialect, the one whose transitions carry a source label) returns exactly one
screen named `A` whose components are exactly one Action component named
`X` and whose transitions are exactly one transition with source label `X`
and target `B`: the single action line produced both the component and the
transition. -/
theorem C1_dual_effect_action_line :
    parseUnnamed "[A]\nA X => B\n" =
      [{ name := ['A'],
         components := [{ kind := CompKindU.action, name := ['X'] }],
         transitions := [{ fromLabel := ['X'], target := ['B'] }],
         sections := [] }] := by
  decide

/-- C2: a screen header `[Login]` followed by the line `={logged in}=>Home`
gives that screen (in the `src/code.ts` dialect, the one with conditional
transitions) one transition with condition `logged in` and target `Home`,
and the line contributes no component. -/
theorem C2_conditional_transition_extraction :
    parseCode "[Login]\n={logged in}=>Home" =
      [{ name := "Login".data,
         requirements := ⟨none, none, none, none⟩,
         components := [],
         transitions := [{ target := "Home".data, condition := some "logged in".data }] }] := by
  decide

/-- C3: the `src/code.ts` parse is a total function (the embedding below is
total, so it returns for every input), and a line matching none of its
classification patterns — including free prose that contains `=>` without
starting with a component prefix, `=>` or `={` — leaves the whole parser
state (hence every screen's components, transitions and requirements)
unchanged, and does not stop the processing of subsequent lines: parsing
with the line removed gives the same result. -/
theorem C3_unrecognized_line_tolerance (s : StateC) (pre post : List (List Char))
    (l : List Char) (h : matchesAnyCode l = false) :
    stepCode s l = s ∧ parseCodeL (pre ++ l :: post) = parseCodeL (pre ++ post) := by
  refine ⟨stepCode_unmatched s l h, ?_⟩
  unfold parseCodeL
  rw [List.foldl_append, List.foldl_append, List.foldl_cons, stepCode_unmatched _ l h]

/-- Witness for C3: the free-prose line `go to => next`, which contains
`=>` but starts with none of the recognized prefixes, is a no-op between a
header line and a component line. -/
theorem C3_witness :
    matchesAnyCode "go to => next".data = false ∧
    (stepCode initC "go to => next".data = initC ∧
      parseCodeL (["[A]".data] ++ "go to => next".data :: ["T x".data])
        = parseCodeL (["[A]".data] ++ ["T x".data])) :=
  ⟨by decide,
    C3_unrecognized_line_tolerance initC ["[A]".data] ["T x".data] "go to => next".data
      (by decide)⟩

/-- C4: within one screen, `// P: fast` followed by `// P: faster` leaves
`requirements.performance = "faster"` (same category overwritten, last
write wins), and the stored description is everything after the first colon
of the annotation, trimmed (second conjunct: a description containing a
further colon is kept whole). -/
theorem C4_requirement_overwrite :
    (parseCode "[S]\n// P: fast\n// P: faster").map (fun s => s.requirements.performance)
        = [some "faster".data] ∧
    (parseCode "[S]\n// P: a:b c").map (fun s => s.requirements.performance)
        = [some "a:b c".data] := by
  decide

/-- C5: every line starting with `=>` (hence not with `={`) appends to the
current screen, when one is open, exactly one transition whose target is
the remainder of the line after `=>`, trimmed, with no condition (and the
`src/code.ts` transition record has no source-label field at all); the
record update touches only `transitions`, so no component is appended. -/
theorem C5_unconditional_transition (s : StateC) (cur : ScreenC) (l : List Char)
    (hpre : startsW ['=', '>'] l = true) (hcur : s.currentScreen = some cur) :
    stepCode s l =
      { s with currentScreen := some { cur with
          transitions := cur.transitions
            ++ [{ target := trimL (l.drop 2), condition := none }] } } := by
  obtain ⟨t, rfl⟩ := startsW_two hpre
  obtain ⟨scr, cs⟩ := s
  cases hcur
  rfl

/-- Witness for C5 at the line `=> Home` with screen `A` open. -/
theorem C5_witness :
    startsW ['=', '>'] "=> Home".data = true ∧
    stepCode ⟨[], some (mkScreenC ['A'])⟩ "=> Home".data =
      { screens := [], currentScreen := some { mkScreenC ['A'] with
          transitions := (mkScreenC ['A']).transitions
            ++ [{ target := trimL ("=> Home".data.drop 2), condition := none }] } } :=
  ⟨by decide,
    C5_unconditional_transition ⟨[], some (mkScreenC ['A'])⟩ (mkScreenC ['A'])
      "=> Home".data (by decide) rfl⟩

/-- C6: order preservation, for every input text and for both parsers.  The
parse result equals the spec-side grouping `collectTop*`, under which the
screen opened by the nth header line is the nth output entry and is built
by folding its own body lines in source order (each fold step appends at
the end of the component/transition lists); consequently the output screen
names are exactly the header names in document order. -/
theorem C6_order_preservation (text : String) :
    parseCode text = collectTopC (linesOf text) ∧
    (parseCode text).map ScreenC.name = ((linesOf text).filter isHeaderL).map headerNameL ∧
    parseUnnamed text = collectTopU (linesOf text) ∧
    (parseUnnamed text).map ScreenU.name = ((linesOf text).filter isHeaderL).map headerNameL := by
  refine ⟨parseCodeL_collect _, ?_, parseUnnamedL_collect _, ?_⟩
  · rw [parseCode, parseCodeL_collect, collectTopC_names]
  · rw [parseUnnamed, parseUnnamedL_collect, collectTopU_names]

/-- C7: duplicate screen names are kept as distinct entries.  For every
input and every name, the number of output screens with that name equals
the number of header lines carrying it (so two same-named headers give two
entries); concretely, `[A] T x [A] T y` yields two screens named `A`, in
document order, each with only its own contents — nothing is merged. -/
theorem C7_duplicate_screen_names (text : String) (n : List Char) :
    ((parseCode text).map ScreenC.name).count n
        = (((linesOf text).filter isHeaderL).map headerNameL).count n ∧
    parseCode "[A]\nT x\n[A]\nT y" =
      [{ name := ['A'], requirements := ⟨none, none, none, none⟩,
         components := [{ kind := CompKindC.text, name := ['x'] }], transitions := [] },
       { name := ['A'], requirements := ⟨none, none, none, none⟩,
         components := [{ kind := CompKindC.text, name := ['y'] }], transitions := [] }] := by
  constructor
  · rw [parseCode, parseCodeL_collect, collectTopC_names]
  · decide

/-- Counterexample to C8 as stated: the input `"[]"` is a header line
(starts with `[`, ends with `]`), and `slice(1, -1)` of it is the empty
string, so parse returns a screen whose name is empty. -/
theorem C8_counterexample : ∃ s ∈ parseCode "[]", s.name = [] := by
  decide

/-- C8 amended: every screen in the output of either parser has a non-empty
name, provided every (trimmed) header line of the input has at least three
characters, i.e. there is something between its brackets.  (The unamended
claim fails exactly on headers of the form `[]` — see the
counterexample.) -/
theorem C8_nonempty_screen_names (text : String)
    (h : ∀ l ∈ linesOf text, isHeaderL l = true → 3 ≤ l.length) :
    (∀ s ∈ parseCode text, s.name ≠ []) ∧ (∀ s ∈ parseUnnamed text, s.name ≠ []) := by
  have key : ∀ nm ∈ ((linesOf text).filter isHeaderL).map headerNameL, nm ≠ [] := by
    intro nm hnm
    obtain ⟨l, hl, rfl⟩ := List.mem_map.mp hnm
    obtain ⟨hmem, hhead⟩ := List.mem_filter.mp hl
    have h3 := h l hmem hhead
    have hlen : (headerNameL l).length = l.length - 1 - 1 := by
      simp [headerNameL, List.length_dropLast, List.length_drop]
    intro hc
    rw [hc] at hlen
    simp only [List.length_nil] at hlen
    omega
  constructor
  · intro s hs
    apply key
    rw [← collectTopC_names, ← parseCodeL_collect]
    exact List.mem_map_of_mem ScreenC.name hs
  · intro s hs
    apply key
    rw [← collectTopU_names, ← parseUnnamedL_collect]
    exact List.mem_map_of_mem ScreenU.name hs

/-- Witness for the amended C8 on a two-header input. -/
theorem C8_witness :
    (∀ l ∈ linesOf "[Ok]\n[No]", isHeaderL l = true → 3 ≤ l.length) ∧
    ((∀ s ∈ parseCode "[Ok]\n[No]", s.name ≠ []) ∧
      (∀ s ∈ parseUnnamed "[Ok]\n[No]", s.name ≠ [])) :=
  ⟨by decide, C8_nonempty_screen_names "[Ok]\n[No]" (by decide)⟩

/-- C9: the renderer's placement pass overwrites the name-to-node map entry
for each screen in sequence order, so a name carried by several screens
resolves to the node of its LAST occurrence (`some i` where `i` is the last
index bearing the name); every connector endpoint — `get(screen.name)` for
the source, `get(transition.to)` for the target — therefore attaches to the
node created for the final screen of that name.  The third conjunct shows
it concretely: two screens named `A`, the first with a transition to `A`,
produce the single connector `(1, 1)` on the last `A` node. -/
theorem C9_duplicate_name_resolution (screens : List ScreenC) (nm : List Char) (i : Nat)
    (hi : i < screens.length) (hname : (screens.get ⟨i, hi⟩).name = nm)
    (hlast : ∀ j (hj : j < screens.length), i < j → (screens.get ⟨j, hj⟩).name ≠ nm) :
    nodeMap screens nm = some i ∧
    (∀ s ∈ screens, ∀ t ∈ s.transitions, t.target = nm →
      nodeMap screens t.target = some i) ∧
    connectors
      [{ name := ['A'], requirements := ⟨none, none, none, none⟩, components := [],
         transitions := [{ target := ['A'], condition := none }] },
       { name := ['A'], requirements := ⟨none, none, none, none⟩, components := [],
         transitions := [] }] = [(1, 1)] := by
  have hmap : nodeMap screens nm = some i := by
    unfold nodeMap
    rw [nodeMapAux_apply, lastIdxOf_of_last screens nm i hi hname hlast]
    simp
  exact ⟨hmap, fun s _ t _ ht => by rw [ht]; exact hmap, by decide⟩

/-- Witness for C9: three screens named `A`, `B`, `A`; the name `A`
resolves to node 2, the last occurrence. -/
theorem C9_witness :
    nodeMap [mkScreenC ['A'], mkScreenC ['B'], mkScreenC ['A']] ['A'] = some 2 ∧
    (∀ s ∈ [mkScreenC ['A'], mkScreenC ['B'], mkScreenC ['A']], ∀ t ∈ s.transitions,
      t.target = ['A'] →
        nodeMap [mkScreenC ['A'], mkScreenC ['B'], mkScreenC ['A']] t.target = some 2) ∧
    connectors
      [{ name := ['A'], requirements := ⟨none, none, none, none⟩, components := [],
         transitions := [{ target := ['A'], condition := none }] },
       { name := ['A'], requirements := ⟨none, none, none, none⟩, components := [],
         transitions := [] }] = [(1, 1)] :=
  C9_duplicate_name_resolution [mkScreenC ['A'], mkScreenC ['B'], mkScreenC ['A']] ['A'] 2
    (by decide) (by decide) (by decide)

/-- C10: in both parsers, lines appearing before the first header are
silently discarded (a prefix of non-header lines never changes the result),
and a text with no header line at all parses to the empty sequence. -/
theorem C10_preheader_lines_discarded (pre post : List (List Char)) (text : String)
    (hp : ∀ l ∈ pre, isHeaderL l = false) :
    parseCodeL (pre ++ post) = parseCodeL post ∧
    parseUnnamedL (pre ++ post) = parseUnnamedL post ∧
    ((∀ l ∈ linesOf text, isHeaderL l = false) →
      parseCode text = [] ∧ parseUnnamed text = []) := by
  have hfoldC : ∀ ls : List (List Char), (∀ l ∈ ls, isHeaderL l = false) →
      ls.foldl stepCode initC = initC := by
    intro ls
    induction ls with
    | nil => intro _; rfl
    | cons l ls ih =>
      intro hall
      rw [List.foldl_cons,
        show stepCode initC l = initC from stepCode_skip [] l (hall l (by simp))]
      exact ih (fun x hx => hall x (by simp [hx]))
  have hfoldU : ∀ ls : List (List Char), (∀ l ∈ ls, isHeaderL l = false) →
      ls.foldl stepUnnamed initU = initU := by
    intro ls
    induction ls with
    | nil => intro _; rfl
    | cons l ls ih =>
      intro hall
      rw [List.foldl_cons,
        show stepUnnamed initU l = initU from stepUnnamed_skip [] l (hall l (by simp))]
      exact ih (fun x hx => hall x (by simp [hx]))
  refine ⟨?_, ?_, ?_⟩
  · unfold parseCodeL
    rw [List.foldl_append, hfoldC pre hp]
  · unfold parseUnnamedL
    rw [List.foldl_append, hfoldU pre hp]
  · intro hall
    constructor
    · show parseCodeL (linesOf text) = []
      unfold parseCodeL
      rw [hfoldC _ hall]
      rfl
    · show parseUnnamedL (linesOf text) = []
      unfold parseUnnamedL
      rw [hfoldU _ hall]
      rfl

/-- Witness for C10: component, transition, requirement and section lines
before the first header are discarded by both parsers, and a headerless
text parses to the empty sequence. -/
theorem C10_witness :
    (∀ l ∈ ["T x".data, "=> Home".data, "// P: f".data, "--".data], isHeaderL l = false) ∧
    (parseCodeL (["T x".data, "=> Home".data, "// P: f".data, "--".data] ++ ["[A]".data])
        = parseCodeL ["[A]".data] ∧
      parseUnnamedL (["T x".data, "=> Home".data, "// P: f".data, "--".data] ++ ["[A]".data])
        = parseUnnamedL ["[A]".data] ∧
      ((∀ l ∈ linesOf "T x\n=> y", isHeaderL l = false) →
        parseCode "T x\n=> y" = [] ∧ parseUnnamed "T x\n=> y" = [])) :=
  ⟨by decide,
    C10_preheader_lines_discarded
      ["T x".data, "=> Home".data, "// P: f".data, "--".data] ["[A]".data] "T x\n=> y"
      (by decide)⟩

end UFML
